import Mathlib

/-!
Verification of the ofxLlamaCpp addon: a shallow embedding of the wrapper
class `ofxLlamaCpp` (src/src/ofxLlamaCpp.cpp) and of the conversation state
machine of the chat example (src/example_chat/src/ofApp.cpp), together with
theorems settling the frozen claims about them.

Calls into the wrapped llama.cpp inference library (which is not part of this
repository) are modelled from the specification's description of that
capability; each such definition carries a doc comment starting with
"Modelled from the spec:".  C++ std::string values are modelled as lists of
characters; float sampling parameters are only ever stored and copied by the
wrapper, never computed with, so they are modelled exactly as rationals.
-/

namespace OfxLlama

/-- Generated text: a C++ std::string modelled as a list of characters. -/
abbrev Str := List Char

/-- A loaded llama model resource.  Its contents are owned by the external
library; only its presence (non-null pointer) matters to the wrapper. -/
structure Model where
  tag : Nat := 0
  deriving Repr, DecidableEq

/-- A llama context: the requested context size together with the key/value
memory of the single logical sequence 0, modelled as the list of token
positions that have been decoded into it. -/
structure Ctx where
  n_ctx : Nat
  mem : List Nat
  deriving Repr, DecidableEq

/-- A built sampler chain.  Rebuilding it is a pure function of the sampling
parameters, so it is modelled as a record of the parameter values it was
built from. -/
structure Sampler where
  top_k : Int
  top_p : ℚ
  temperature : ℚ
  repeat_penalty : ℚ
  frequency_penalty : ℚ
  presence_penalty : ℚ
  deriving Repr, DecidableEq

/-- The private state of an `ofxLlamaCpp` handle (ofxLlamaCpp.h), with the
default member initializers of the header. -/
structure Handle where
  model : Option Model := none
  ctx : Option Ctx := none
  modelPath : Str := []
  contextSize : Nat := 2048
  sampler : Option Sampler := none
  generating : Bool := false
  requestStop : Bool := false
  pendingOut : Str := []
  currentPrompt : Str := []
  temperature : ℚ := 4/5
  top_p : ℚ := 9/10
  top_k : Int := 40
  repeat_penalty : ℚ := 11/10
  presence_penalty : ℚ := 0
  frequency_penalty : ℚ := 0
  min_gen_tokens : Nat := 0
  max_gen_tokens : Nat := 200
  stopWords : List Str := []
  deriving Repr, DecidableEq

/-- A freshly constructed handle, before any model is loaded. -/
def initHandle : Handle := {}

/-- Engine resource release calls, recorded as a trace by `unload`. -/
inductive FreeEv
  | freeSampler
  | freeCtx
  | freeModel
  deriving Repr, DecidableEq

/-- ofxLlamaCpp::unload (ofxLlamaCpp.cpp lines 115-122): frees the sampler,
then the context, then the model, each step a no-op when the corresponding
pointer is already null.  The returned trace lists the engine free calls in
program order. -/
def unload (h : Handle) : Handle × List FreeEv :=
  let s1 : Handle × List FreeEv :=
    if h.sampler.isSome then ({ h with sampler := none }, [FreeEv.freeSampler]) else (h, [])
  let s2 : Handle × List FreeEv :=
    if s1.1.ctx.isSome then ({ s1.1 with ctx := none }, [FreeEv.freeCtx]) else (s1.1, [])
  let s3 : Handle × List FreeEv :=
    if s2.1.model.isSome then ({ s2.1 with model := none }, [FreeEv.freeModel]) else (s2.1, [])
  (s3.1, s1.2 ++ s2.2 ++ s3.2)

/-- ofxLlamaCpp::isModelLoaded (lines 126-128). -/
def isModelLoaded (h : Handle) : Bool :=
  h.model.isSome && h.ctx.isSome

/-- ofxLlamaCpp::buildSampler (lines 325-350): frees any existing sampler and
rebuilds the chain deterministically from the current parameters. -/
def buildSampler (h : Handle) : Handle :=
  let s : Sampler :=
    ⟨h.top_k, h.top_p, h.temperature, h.repeat_penalty,
     h.frequency_penalty, h.presence_penalty⟩
  { h with sampler := some s }

/-- ofxLlamaCpp::loadModel (lines 57-111).  The outcomes of the two engine
calls that can fail (model file parse and context creation, both external)
are passed in as the oracles `modelOk` and `ctxOk`.  On a model-load failure
it returns false; on a context-creation failure it frees the just-loaded
model and returns false; otherwise it stores the context, builds the sampler
and returns true. -/
def loadModel (modelOk ctxOk : Bool) (h : Handle) (path : Str) (n_ctx_req : Nat) :
    Handle × Bool :=
  let h := (unload h).1
  if !modelOk then (h, false)
  else
    let h := { h with model := some {}, modelPath := path }
    if !ctxOk then ({ h with model := none }, false)
    else
      let h := { h with ctx := some ⟨n_ctx_req, []⟩, contextSize := n_ctx_req }
      (buildSampler h, true)

/-- ofxLlamaCpp::setMinTokens (line 186): stores the value and nothing else. -/
def setMinTokens (h : Handle) (n : Nat) : Handle :=
  { h with min_gen_tokens := n }

/-- ofxLlamaCpp::setMaxTokens (line 187). -/
def setMaxTokens (h : Handle) (n : Nat) : Handle :=
  { h with max_gen_tokens := n }

/-- ofxLlamaCpp::addStopWord (lines 192-194). -/
def addStopWord (h : Handle) (s : Str) : Handle :=
  { h with stopWords := h.stopWords ++ [s] }

/-- Result of a call into the external inference library: either a value, or
undefined behavior (the call was made with a null model or context pointer,
which is outside the library's contract — in practice a crash). -/
inductive EngineOut (α : Type)
  | ok (a : α)
  | ub
  deriving Repr, DecidableEq

/-- The vocabulary behavior of a loaded model, supplied by the external
library: text-to-token conversion, token-to-piece conversion and the
end-of-sequence token id.  These are pure functions of the loaded
vocabulary. -/
structure VocabFns where
  tokenizeFn : Str → List Nat
  pieceFn : Nat → Str
  eosTok : Nat

/-- Modelled from the spec: llama_model_get_vocab, the engine's vocabulary
accessor.  The vocabulary is a pure function of the loaded model; passing a
null model pointer is outside the engine's contract (undefined behavior). -/
def llama_model_get_vocab (vf : VocabFns) : Option Model → EngineOut VocabFns
  | none => EngineOut.ub
  | some _ => EngineOut.ok vf

/-- ofxLlamaCpp::tokenize (lines 246-263): fetches the vocabulary of
`h.model` — without any null check — and converts the text to tokens. -/
def tokenize (vf : VocabFns) (h : Handle) (text : Str) : EngineOut (List Nat) :=
  match llama_model_get_vocab vf h.model with
  | EngineOut.ub => EngineOut.ub
  | EngineOut.ok v => EngineOut.ok (v.tokenizeFn text)

/-- ofxLlamaCpp::detokenize (lines 267-288): fetches the vocabulary of
`h.model` — without any null check — and concatenates the piece of every
token. -/
def detokenize (vf : VocabFns) (h : Handle) (toks : List Nat) : EngineOut Str :=
  match llama_model_get_vocab vf h.model with
  | EngineOut.ub => EngineOut.ub
  | EngineOut.ok v => EngineOut.ok (toks.foldl (fun out t => out ++ v.pieceFn t) [])

/-- ofxLlamaCpp::resetContext (lines 293-298): when a context exists, removes
the whole key/value memory of sequence 0; a no-op otherwise (this function
does check for a null context). -/
def resetContext (h : Handle) : Handle :=
  match h.ctx with
  | none => h
  | some c => { h with ctx := some { c with mem := [] } }

/-- ofxLlamaCpp::getContextSize (lines 141-143): the context's size, or 0
when no context is loaded. -/
def getContextSize (h : Handle) : Nat :=
  match h.ctx with
  | none => 0
  | some c => c.n_ctx

/-- Modelled from the spec: llama_memory_seq_pos_max, the engine's
"current max token position used" query for sequence 0, which the spec fixes
to yield a fill ratio of 0 for a freshly reset (empty) memory. -/
def llama_memory_seq_pos_max (mem : List Nat) : Nat :=
  mem.foldl max 0

/-- ofxLlamaCpp::getContextFillRatio (lines 303-307): reads the memory of
`h.ctx` — without any null check — and divides the maximum used position by
`getContextSize`.  With no context loaded the code passes a null pointer to
llama_get_memory and divides by a zero context size. -/
def getContextFillRatio (h : Handle) : EngineOut ℚ :=
  match h.ctx with
  | none => EngineOut.ub
  | some c =>
      EngineOut.ok ((llama_memory_seq_pos_max c.mem : ℚ) / (getContextSize h : ℚ))

/-- Modelled from the spec: llama_decode, the engine's batch-decode call.
The context window is a bounded buffer of past token positions of fixed
size, so decoding fails when a submitted position falls outside it;
otherwise the submitted positions are added to the key/value memory. -/
def llama_decode (n_ctx : Nat) (mem : List Nat) (ps : List Nat) : Option (List Nat) :=
  if ps.all (fun p => p < n_ctx) then some (mem ++ ps) else none

/-- ofxLlamaCpp::checkStopSequences (lines 355-364): true when the
accumulated string ends with some non-empty configured stop word. -/
def checkStopSequences (stopWords : List Str) (s : Str) : Bool :=
  stopWords.any fun w => !w.isEmpty && decide (w.length ≤ s.length) && w.isSuffixOf s

/-- ofxLlamaCpp::getNewOutput (lines 407-412): under the mutex, copies the
pending buffer, clears it, and returns the copy. -/
def getNewOutput (h : Handle) : Handle × Str :=
  ({ h with pendingOut := [] }, h.pendingOut)

/-- The worker's prompt-processing phase (generationLoop lines 431-458):
feed the prompt tokens through the engine in batches of at most `nBatch`,
at consecutive positions starting from `n_past`.  `fuel` is the number of
remaining tokens (the loop strictly consumes tokens each round, so fuel
equal to the token count always suffices).  Returns the memory, the new
`n_past`, and whether every batch decoded successfully; on a decode failure
the worker logs and returns early with `generating = false`. -/
def feedPrompt (nBatch n_ctx : Nat) :
    Nat → List Nat → List Nat → Nat → List Nat × Nat × Bool
  | _, [], mem, n_past => (mem, n_past, true)
  | 0, _ :: _, mem, n_past => (mem, n_past, false)
  | fuel + 1, tok :: rest, mem, n_past =>
      let toks := tok :: rest
      let n_eval := min toks.length nBatch
      match llama_decode n_ctx mem ((List.range n_eval).map (fun i => n_past + i)) with
      | none => (mem, n_past, false)
      | some mem2 => feedPrompt nBatch n_ctx fuel (toks.drop n_eval) mem2 (n_past + n_eval)

/-- The mutable state of the worker's token-generation phase
(generationLoop lines 460-515): the shared pending buffer, the local
accumulated `generated` string, the position counter `n_past`, the engine
memory, the number of sampler calls made so far (one per loop iteration),
the number of text fragments produced, and whether the loop ended on a
decode failure. -/
structure LoopSt where
  pendingOut : Str
  generated : Str
  n_past : Nat
  mem : List Nat
  sampleIdx : Nat
  genCount : Nat
  aborted : Bool
  deriving Repr, DecidableEq

/-- The worker's token-generation loop (generationLoop lines 463-515),
iteration by iteration: check the stop flag, sample a token, stop on the
end-of-sequence token, convert it to a text fragment, append the fragment to
the shared pending buffer and to the accumulated text, stop if the
accumulated text now ends with a stop word, decode the token at position
`n_past`, advance.  `samples` gives the successive results of
llama_sampler_sample and `stopSched` the value of the `requestStop` flag as
observed at each iteration. -/
def genTokens (vf : VocabFns) (samples : Nat → Nat) (stopSched : Nat → Bool)
    (stopWords : List Str) (n_ctx : Nat) : Nat → LoopSt → LoopSt
  | 0, st => st
  | fuel + 1, st =>
      if stopSched st.sampleIdx then st
      else
        let tok := samples st.sampleIdx
        let st := { st with sampleIdx := st.sampleIdx + 1 }
        if tok = vf.eosTok then st
        else
          let piece := vf.pieceFn tok
          let st := { st with
            pendingOut := st.pendingOut ++ piece,
            generated := st.generated ++ piece,
            genCount := st.genCount + 1 }
          if checkStopSequences stopWords st.generated then st
          else
            match llama_decode n_ctx st.mem [st.n_past] with
            | none => { st with aborted := true }
            | some mem2 =>
                genTokens vf samples stopSched stopWords n_ctx fuel
                  { st with mem := mem2, n_past := st.n_past + 1 }

/-- ofxLlamaCpp::generationLoop (lines 418-519), run on the worker thread:
reset the context, tokenize the stored prompt, feed it in batches of 512
(the n_batch chosen by loadModel), then run the token-generation loop with
`max_gen_tokens` as the iteration bound, and finally clear the `generating`
flag.  The worker only ever runs after startGeneration checked the context,
but the definition is total: with no context or model it propagates the
undefined-behavior marker. -/
def generationLoop (vf : VocabFns) (samples : Nat → Nat) (stopSched : Nat → Bool)
    (h : Handle) : EngineOut Handle :=
  let h := resetContext h
  let prompt := h.currentPrompt
  match tokenize vf h prompt, h.ctx with
  | EngineOut.ub, _ => EngineOut.ub
  | EngineOut.ok _, none => EngineOut.ub
  | EngineOut.ok toks, some c =>
      let fed := feedPrompt 512 c.n_ctx toks.length toks c.mem 0
      if !fed.2.2 then
        EngineOut.ok { h with ctx := some { c with mem := fed.1 }, generating := false }
      else
        let st0 : LoopSt :=
          ⟨h.pendingOut, [], fed.2.1, fed.1, 0, 0, false⟩
        let st := genTokens vf samples stopSched h.stopWords c.n_ctx h.max_gen_tokens st0
        EngineOut.ok { h with
          pendingOut := st.pendingOut,
          ctx := some { c with mem := st.mem },
          generating := false }

/-- The synchronous part of ofxLlamaCpp::startGeneration (lines 369-385):
with no context it returns immediately; otherwise it stops any previous
generation, resets the shared fields under the mutex and spawns the worker.
The returned Bool records whether a worker was spawned. -/
def startGeneration (h : Handle) (prompt : Str) (maxTokens : Nat) : Handle × Bool :=
  match h.ctx with
  | none => (h, false)
  | some _ =>
      let h := { h with requestStop := true }
      let h := { h with
        currentPrompt := prompt,
        pendingOut := [],
        max_gen_tokens := maxTokens,
        generating := true,
        requestStop := false }
      (h, true)

/-!
Concurrency model for the generation worker.  The wrapper owns a single
std::thread member `worker`; a state of the running system records the
threads that have been spawned and not yet joined (`threads`, in spawn
order, so the `worker` member denotes the last element), together with the
shared fields the worker writes.  Consumer-side operations are the
functions below; the asynchronous execution of a live worker is the step
relation `WStep`.
-/

/-- A spawned generation worker: the fragments its loop will still publish,
and whether its thread routine has already returned (a finished thread stays
joinable until joined). -/
structure ThreadSt where
  pieces : List Str
  done : Bool
  deriving Repr, DecidableEq

/-- The state shared between the consumer thread and the generation
workers. -/
structure Sys where
  ctxLoaded : Bool
  generating : Bool
  requestStop : Bool
  pendingOut : Str
  threads : List ThreadSt
  deriving Repr, DecidableEq

/-- ofxLlamaCpp::stopGeneration (lines 390-396): set `requestStop`, and when
the `worker` member is joinable, join it — block until its routine has run
to completion (under a raised stop flag it exits at its next flag check,
clearing `generating` on the way out) and it is no longer joinable. -/
def sysStop (s : Sys) : Sys :=
  let s := { s with requestStop := true }
  if s.threads.isEmpty then s
  else { s with threads := s.threads.dropLast, generating := false }

/-- ofxLlamaCpp::startGeneration (lines 369-385) at the system level: with
no context, return; otherwise stop the previous generation (join), reset the
shared fields under the mutex and spawn one new worker. -/
def sysStart (s : Sys) (pieces : List Str) : Sys :=
  if !s.ctxLoaded then s
  else
    let s := sysStop s
    let s := { s with pendingOut := [], generating := true, requestStop := false }
    { s with threads := s.threads ++ [⟨pieces, false⟩] }

/-- ofxLlamaCpp::getNewOutput at the system level: swap out the pending
buffer under the mutex. -/
def sysPoll (s : Sys) : Sys × Str :=
  ({ s with pendingOut := [] }, s.pendingOut)

/-- One asynchronous step of a live (spawned, not yet joined, not yet
finished) worker thread: publish its next fragment when the stop flag is
down, or exit — clearing the `generating` flag — when the flag is up or its
fragments are exhausted. -/
inductive WStep : Sys → Sys → Prop
  | publish (s : Sys) (i : Nat) (p : Str) (rest : List Str)
      (hget : s.threads.get? i = some ⟨p :: rest, false⟩)
      (hstop : s.requestStop = false) :
      WStep s { s with pendingOut := s.pendingOut ++ p,
                       threads := s.threads.set i ⟨rest, false⟩ }
  | exitDone (s : Sys) (i : Nat) (ps : List Str)
      (hget : s.threads.get? i = some ⟨ps, false⟩)
      (hend : ps = [] ∨ s.requestStop = true) :
      WStep s { s with generating := false,
                       threads := s.threads.set i ⟨ps, true⟩ }

/-- Interleaving of consumer API calls and asynchronous worker steps. -/
inductive SysStep : Sys → Sys → Prop
  | start (s : Sys) (pieces : List Str) : SysStep s (sysStart s pieces)
  | stop (s : Sys) : SysStep s (sysStop s)
  | poll (s : Sys) : SysStep s (sysPoll s).1
  | worker (s s' : Sys) (h : WStep s s') : SysStep s s'

/-- The initial system state: handle constructed, model possibly loaded,
no worker ever spawned. -/
def sysInit (ctxLoaded : Bool) : Sys :=
  ⟨ctxLoaded, false, false, [], []⟩

/-- States reachable by any interleaving of start/stop/poll calls and worker
steps. -/
inductive SysReach : Sys → Prop
  | init (b : Bool) : SysReach (sysInit b)
  | step (s s' : Sys) (hr : SysReach s) (hs : SysStep s s') : SysReach s'

/-!
Streaming output channel model: the pending buffer written by the worker
(generationLoop lines 486-489) and drained by getNewOutput (lines 407-412).
A session is an arbitrary interleaving of append events (one per published
fragment, in production order) and poll events.
-/

/-- One event on the streaming output channel. -/
inductive ChanEv
  | append (p : Str)
  | poll
  deriving Repr, DecidableEq

/-- Run a sequence of channel events against the pending buffer, returning
the final buffer contents and the list of strings the polls returned, in
call order. -/
def runChan : Str → List ChanEv → Str × List Str
  | pend, [] => (pend, [])
  | pend, ChanEv.append p :: evs => runChan (pend ++ p) evs
  | pend, ChanEv.poll :: evs =>
      let r := runChan [] evs
      (r.1, pend :: r.2)

/-- The fragments appended during a sequence of channel events, in order. -/
def appendsOf (evs : List ChanEv) : List Str :=
  evs.filterMap fun e =>
    match e with
    | ChanEv.append p => some p
    | ChanEv.poll => none

/-!
Conversation state machine of the chat example
(src/example_chat/src/ofApp.cpp / ofApp.h).
-/

/-- Display color of a chat message (ofColor values in the source). -/
inductive MsgColor
  | white
  | yellow
  | orange
  deriving Repr, DecidableEq

/-- A chat message of the example app (AppTypes ChatMessage): content,
whether it came from the user, and its display color tag. -/
structure ChatMessage where
  content : Str
  isUser : Bool
  color : MsgColor
  deriving Repr, DecidableEq

/-- The example app's state enum (AppTypes AppState). -/
inductive AppState
  | CHATTING
  | GENERATING_REPLY
  | SUMMARIZING
  deriving Repr, DecidableEq

/-- The parts of ofApp's state driven by the conversation state machine. -/
structure AppSt where
  currentState : AppState
  chatHistory : List ChatMessage
  conversationSummary : Str
  tempSummary : Str
  input : Str
  wasGenerating : Bool
  deriving Repr, DecidableEq

/-- The default history bounds of ofApp.h: CHAT_HISTORY_LIMIT. -/
def CHAT_HISTORY_LIMIT : Nat := 8

/-- The default history bounds of ofApp.h: SUMMARY_INTERVAL. -/
def SUMMARY_INTERVAL : Nat := 4

/-- Whether `w` occurs in `s` at position `p` (the substring of `s` starting
at `p` begins with `w`; for this to hold `p + w.length` cannot exceed
`s.length`). -/
def matchesAt (w s : Str) (p : Nat) : Bool :=
  (s.drop p).take w.length == w

/-- Descending search used by `rfind`: the greatest `q ≤ p` at which `w`
matches in `s`, if any. -/
def rfindAux (w s : Str) : Nat → Option Nat
  | 0 => if matchesAt w s 0 then some 0 else none
  | p + 1 => if matchesAt w s (p + 1) then some (p + 1) else rfindAux w s p

/-- std::string::rfind(w): the highest position at which `w` occurs in `s`
(at most `s.length - w.length`), or none.  An empty `w` matches at
`s.length`. -/
def rfind (w s : Str) : Option Nat :=
  if w.length ≤ s.length then rfindAux w s (s.length - w.length) else none

/-- One iteration of the stop-word cleanup of ofApp::update (lines 343-348):
`content.rfind(stopWord)` followed by `content.erase(pos)`, which truncates
the string at the last occurrence; the string is unchanged when the stop
word does not occur. -/
def trimStopWord (s w : Str) : Str :=
  match rfind w s with
  | some p => s.take p
  | none => s

/-- The stop-word cleanup loop of ofApp::update (lines 342-348): apply
`trimStopWord` for every configured stop word, in configuration order,
each against the already-truncated text. -/
def stripStopWords (stopWords : List Str) (s : Str) : Str :=
  stopWords.foldl trimStopWord s

/-- Modelled from the spec: the claimed trimming policy — scan all stop
words, take the match furthest right across all of them, and truncate the
message there, keeping the text before that rightmost match. -/
def rightmostStrip (stopWords : List Str) (s : Str) : Str :=
  match (stopWords.filterMap fun w => rfind w s).max? with
  | some p => s.take p
  | none => s

/-- ofApp::keyPressed on RETURN (lines 401-418): ignore empty input or a
busy state; otherwise append the user's message, clear the input, and
either start a summarization session (when the history has reached
`limit + interval` messages) or a reply session.  Both session starters set
`wasGenerating`; startSummarization also clears `temp_summary_output`. -/
def submitInput (limit interval : Nat) (st : AppSt) : AppSt :=
  if st.input.isEmpty || !(st.currentState = AppState.CHATTING) then st
  else
    let hist := st.chatHistory ++ [⟨st.input, true, MsgColor.yellow⟩]
    let st := { st with chatHistory := hist, input := [] }
    if limit + interval ≤ hist.length then
      { st with currentState := AppState.SUMMARIZING,
                tempSummary := [], wasGenerating := true }
    else
      { st with currentState := AppState.GENERATING_REPLY, wasGenerating := true }

/-- The chunk-routing part of ofApp::update (lines 296-314): a non-empty
chunk from getNewOutput goes to the summary accumulator while summarizing,
and to the last assistant message (creating one if needed) while generating
a reply. -/
def routeChunk (chunk : Str) (st : AppSt) : AppSt :=
  if chunk.isEmpty then st
  else
    match st.currentState with
    | AppState.SUMMARIZING => { st with tempSummary := st.tempSummary ++ chunk }
    | AppState.GENERATING_REPLY =>
        match st.chatHistory.getLast? with
        | none => { st with chatHistory := [⟨chunk, false, MsgColor.white⟩] }
        | some last =>
            if last.isUser then
              { st with chatHistory := st.chatHistory ++ [⟨chunk, false, MsgColor.white⟩] }
            else
              { st with chatHistory :=
                  st.chatHistory.dropLast ++ [{ last with content := last.content ++ chunk }] }
    | AppState.CHATTING => st

/-- The session-finished part of ofApp::update (lines 317-356).  When the
previous frame was generating and the engine is idle now: after a
summarization, store the summary, prune the oldest
`chatHistory.size() - limit` messages when that count is positive (int
arithmetic in the source, hence the Int comparison), and start the reply
session; after a reply, strip the configured stop words from the last
assistant message and return to CHATTING. -/
def finishSession (limit : Nat) (stopWords : List Str) (st : AppSt) : AppSt :=
  let st := { st with wasGenerating := false }
  match st.currentState with
  | AppState.SUMMARIZING =>
      let pruneCount : Int := (st.chatHistory.length : Int) - (limit : Int)
      let hist :=
        if 0 < pruneCount then st.chatHistory.drop pruneCount.toNat else st.chatHistory
      { st with conversationSummary := st.tempSummary,
                chatHistory := hist,
                currentState := AppState.GENERATING_REPLY,
                wasGenerating := true }
  | AppState.GENERATING_REPLY =>
      let hist :=
        match st.chatHistory.getLast? with
        | none => st.chatHistory
        | some last =>
            if last.isUser then st.chatHistory
            else st.chatHistory.dropLast ++
              [{ last with content := stripStopWords stopWords last.content }]
      { st with chatHistory := hist, currentState := AppState.CHATTING }
  | AppState.CHATTING => st

/-- ofApp::update (lines 292-358) for one frame: route the polled chunk,
run the session-finished logic when `wasGenerating` was set and the first
isGenerating() read `g1` is false, and finally overwrite `wasGenerating`
with the second isGenerating() read `g2` (line 357). -/
def updateFrame (limit : Nat) (stopWords : List Str) (chunk : Str)
    (g1 g2 : Bool) (st : AppSt) : AppSt :=
  let st := routeChunk chunk st
  let st := if st.wasGenerating && !g1 then finishSession limit stopWords st else st
  { st with wasGenerating := g2 }

/-- Functorial action on engine results. -/
def EngineOut.map (f : α → β) : EngineOut α → EngineOut β
  | EngineOut.ok a => EngineOut.ok (f a)
  | EngineOut.ub => EngineOut.ub

/-- Erase the one field `setMinTokens` writes, to compare generation results
up to it. -/
def forgetMinTokens (h : Handle) : Handle :=
  { h with min_gen_tokens := 0 }

/-- The vocabulary of the split-stop-word scenario: token 0 decodes to the
fragment "xA", token 1 to the fragment "B", anything else to "z"; token 99
is the end-of-sequence token. -/
def vfSplit : VocabFns :=
  ⟨fun _ => [], fun t => if t = 0 then ['x', 'A'] else if t = 1 then ['B'] else ['z'], 99⟩

/-- A chat state with 11 alternating messages and pending user input. -/
def st11 : AppSt :=
  ⟨AppState.CHATTING,
   (List.range 11).map (fun i => ⟨['m'], i % 2 == 0, MsgColor.white⟩),
   [], [], ['h', 'i'], false⟩

/-- The stop words the chat example configures for the Teuken template, in
configuration order (ofApp::onTemplateChange lines 180-183). -/
def teukenStops : List Str :=
  ["User:".data, "Assistant:".data]

/-- An assistant reply in which two different stop words occur at different
offsets. -/
def msgC5 : Str :=
  "Hello User: hi Assistant:".data

/-- A chat state whose reply session (producing `msgC5`) has just
finished. -/
def stC5 : AppSt :=
  ⟨AppState.GENERATING_REPLY, [⟨msgC5, false, MsgColor.white⟩], [], [], [], true⟩

/-!  Helper lemmas. -/

theorem unload_fst (h : Handle) :
    (unload h).1 = { h with sampler := none, ctx := none, model := none } := by
  cases h with
  | mk model ctx a b sampler c d e f g i j k l m n o p =>
      cases model <;> cases ctx <;> cases sampler <;> rfl

theorem unload_snd (h : Handle) :
    (unload h).2 =
      (if h.sampler.isSome then [FreeEv.freeSampler] else []) ++
      (if h.ctx.isSome then [FreeEv.freeCtx] else []) ++
      (if h.model.isSome then [FreeEv.freeModel] else []) := by
  cases h with
  | mk model ctx a b sampler c d e f g i j k l m n o p =>
      cases model <;> cases ctx <;> cases sampler <;> rfl

/-- C6: if loadModel fails — the model file cannot be parsed, or context
creation fails after the model was loaded — it returns false and leaves the
handle fully unloaded (model, context and sampler pointers all null, so
isModelLoaded is false); in the context-creation-failure case the
just-loaded model is released before returning.  The returned flag is true
exactly when both engine calls succeed. -/
theorem C6_loadModel_failure_leaves_unloaded :
    ∀ (mOk cOk : Bool) (h : Handle) (path : Str) (n : Nat),
      ((loadModel mOk cOk h path n).2 = (mOk && cOk)) ∧
      ((loadModel mOk cOk h path n).2 = false →
        (loadModel mOk cOk h path n).1.model = none ∧
        (loadModel mOk cOk h path n).1.ctx = none ∧
        (loadModel mOk cOk h path n).1.sampler = none ∧
        isModelLoaded (loadModel mOk cOk h path n).1 = false) := by
  intro mOk cOk h path n
  cases mOk <;> cases cOk <;>
    simp [loadModel, unload_fst, isModelLoaded, buildSampler]

/-- C6 witness: context creation fails on a fresh handle after a successful
model load; loadModel reports failure and the handle is fully unloaded. -/
theorem C6_witness :
    (loadModel true false initHandle ['m'] 4).2 = false ∧
    (loadModel true false initHandle ['m'] 4).1.model = none ∧
    (loadModel true false initHandle ['m'] 4).1.ctx = none ∧
    (loadModel true false initHandle ['m'] 4).1.sampler = none := by
  have h := C6_loadModel_failure_leaves_unloaded true false initHandle ['m'] 4
  have hf : (loadModel true false initHandle ['m'] 4).2 = false := by decide
  obtain ⟨h1, h2, h3, h4⟩ := h.2 hf
  exact ⟨hf, h1, h2, h3⟩

/-- C7: unload frees the sampler, then the context, then the model, in that
dependency order (its free-call trace is a sublist of the full ordered
trace), with each step a no-op when the corresponding pointer is already
null; afterwards all three pointers are null, a second unload changes
nothing and frees nothing, unload on a fresh handle is a no-op, and a
loadModel whose engine calls succeed succeeds on the unloaded handle. -/
theorem C7_unload_order_idempotent_reloadable :
    ∀ (h : Handle) (path : Str) (n : Nat),
      (List.Sublist (unload h).2
        [FreeEv.freeSampler, FreeEv.freeCtx, FreeEv.freeModel]) ∧
      ((unload h).1.sampler = none ∧ (unload h).1.ctx = none ∧
        (unload h).1.model = none) ∧
      (unload (unload h).1 = ((unload h).1, [])) ∧
      (unload initHandle = (initHandle, [])) ∧
      ((loadModel true true (unload h).1 path n).2 = true ∧
        isModelLoaded (loadModel true true (unload h).1 path n).1 = true) := by
  intro h path n
  refine ⟨?_, ?_, ?_, ?_, ?_⟩
  · rw [unload_snd]
    cases h.sampler.isSome <;> cases h.ctx.isSome <;> cases h.model.isSome <;>
      simp
  · simp [unload_fst]
  · rw [unload_fst]; rfl
  · rfl
  · simp [unload_fst, loadModel, isModelLoaded, buildSampler]

/-- C8 (recording the divergence): with no model loaded, tokenize and
detokenize do not return an empty result — they pass a null model pointer
straight into the engine's vocabulary accessor, which is undefined behavior
— while startGeneration does have its guard: on a fresh handle it is a
no-op that spawns no worker and leaves the handle, including the false
`generating` flag, unchanged. -/
theorem C8_tokenize_unguarded_null_model :
    (∀ (vf : VocabFns) (text : Str),
      tokenize vf initHandle text = EngineOut.ub ∧
      tokenize vf initHandle text ≠ EngineOut.ok []) ∧
    (∀ (vf : VocabFns) (toks : List Nat),
      detokenize vf initHandle toks = EngineOut.ub ∧
      detokenize vf initHandle toks ≠ EngineOut.ok []) ∧
    (∀ (prompt : Str) (maxTokens : Nat),
      startGeneration initHandle prompt maxTokens = (initHandle, false)) ∧
    initHandle.generating = false := by
  refine ⟨fun vf text => ⟨rfl, by simp [tokenize, llama_model_get_vocab, initHandle]⟩,
          fun vf toks => ⟨rfl, by simp [detokenize, llama_model_get_vocab, initHandle]⟩,
          fun prompt maxTokens => rfl, rfl⟩

theorem wstep_threads_ne_nil {s s' : Sys} (hw : WStep s s') : s.threads ≠ [] := by
  cases hw with
  | publish i p rest hget hstop =>
      intro hnil
      rw [hnil] at hget
      simp at hget
  | exitDone i ps hget hend =>
      intro hnil
      rw [hnil] at hget
      simp at hget

theorem wstep_threads_length {s s' : Sys} (hw : WStep s s') :
    s'.threads.length = s.threads.length := by
  cases hw with
  | publish i p rest hget hstop => simp
  | exitDone i ps hget hend => simp

theorem sysStop_threads (s : Sys) :
    (sysStop s).threads = s.threads.dropLast := by
  cases s with
  | mk cl g rs po th => cases th <;> rfl

theorem sysStop_threads_nil {s : Sys} (hle : s.threads.length ≤ 1) :
    (sysStop s).threads = [] := by
  rw [sysStop_threads]
  cases hth : s.threads with
  | nil => rfl
  | cons a rest =>
      cases rest with
      | nil => rfl
      | cons b rest2 => rw [hth] at hle; simp at hle

theorem sys_threads_le_one {s : Sys} (hr : SysReach s) : s.threads.length ≤ 1 := by
  induction hr with
  | init b => simp [sysInit]
  | step s s' hr hs ih =>
      cases hs with
      | start pieces =>
          unfold sysStart
          by_cases hc : s.ctxLoaded = true
          · simp [hc, sysStop_threads_nil ih]
          · simp only [Bool.not_eq_true] at hc
            simp [hc, ih]
      | stop =>
          rw [sysStop_threads, List.length_dropLast]
          omega
      | poll => simpa [sysPoll] using ih
      | worker _ hw => rw [wstep_threads_length hw]; exact ih

/-- C1: in every interleaving of startGeneration/stopGeneration/getNewOutput
calls and asynchronous worker steps, at most one worker thread is ever
spawned-and-unjoined at a time; stopGeneration joins the worker, so after it
returns no unjoined worker exists and no worker step — in particular no
write to the shared pending buffer or to the `generating` liveness flag —
can occur any more. -/
theorem C1_single_worker_stop_joins :
    (∀ s : Sys, SysReach s → s.threads.length ≤ 1) ∧
    (∀ s : Sys, SysReach s → (sysStop s).threads = []) ∧
    (∀ s s' : Sys, SysReach s → ¬ WStep (sysStop s) s') := by
  refine ⟨fun s hr => sys_threads_le_one hr,
          fun s hr => sysStop_threads_nil (sys_threads_le_one hr),
          fun s s' hr hw => ?_⟩
  exact wstep_threads_ne_nil hw (sysStop_threads_nil (sys_threads_le_one hr))

/-- C1 witness: a concrete reachable state — a session started on a loaded
handle — has exactly one live worker, and joining it leaves none. -/
theorem C1_witness :
    (sysStart (sysInit true) [['a']]).threads.length ≤ 1 ∧
    (sysStop (sysStart (sysInit true) [['a']])).threads = [] := by
  have hr : SysReach (sysStart (sysInit true) [['a']]) :=
    SysReach.step _ _ (SysReach.init true) (SysStep.start _ [['a']])
  exact ⟨C1_single_worker_stop_joins.1 _ hr, C1_single_worker_stop_joins.2.1 _ hr⟩

theorem runChan_flatten (evs : List ChanEv) :
    ∀ pend : Str,
      ((runChan pend evs).2).flatten ++ (runChan pend evs).1 =
        pend ++ (appendsOf evs).flatten := by
  induction evs with
  | nil => intro pend; simp [runChan, appendsOf]
  | cons e evs ih =>
      intro pend
      cases e with
      | append p =>
          simp only [runChan, appendsOf, List.filterMap_cons]
          rw [ih (pend ++ p)]
          simp [appendsOf, List.flatten]
      | poll =>
          simp only [runChan, appendsOf, List.filterMap_cons]
          have := ih []
          simp only [List.flatten]
          rw [List.append_assoc, this]
          simp [appendsOf]

theorem genTokens_pending_generated (vf : VocabFns) (samples : Nat → Nat)
    (stopSched : Nat → Bool) (sw : List Str) (n_ctx : Nat) :
    ∀ (fuel : Nat) (st : LoopSt), st.pendingOut = st.generated →
      (genTokens vf samples stopSched sw n_ctx fuel st).pendingOut =
        (genTokens vf samples stopSched sw n_ctx fuel st).generated := by
  intro fuel
  induction fuel with
  | zero => intro st h; exact h
  | succ fuel ih =>
      intro st h
      simp only [genTokens]
      split
      · exact h
      · split
        · simpa using h
        · split
          · simp [h]
          · split
            · simp [h]
            · exact ih _ (by simp [h])

/-- C2: the streaming output channel loses, duplicates and reorders nothing:
for every interleaving of worker appends and consumer polls, the
concatenation of the polled strings in call order followed by whatever is
left in the buffer equals the initial buffer contents followed by the
concatenation of all appended fragments in production order; each
getNewOutput call leaves the pending buffer empty and returns exactly its
previous contents; and a worker loop started with the pending buffer equal
to the accumulated text (both empty at session start) keeps them equal, so
a single drain after completion yields the full generated text. -/
theorem C2_poll_concat_equals_drain :
    (∀ (evs : List ChanEv) (pend : Str),
      ((runChan pend evs).2).flatten ++ (runChan pend evs).1 =
        pend ++ (appendsOf evs).flatten) ∧
    (∀ h : Handle,
      (getNewOutput h).1.pendingOut = [] ∧ (getNewOutput h).2 = h.pendingOut) ∧
    (∀ (vf : VocabFns) (samples : Nat → Nat) (stopSched : Nat → Bool)
        (sw : List Str) (n_ctx fuel : Nat) (st : LoopSt),
      st.pendingOut = st.generated →
        (genTokens vf samples stopSched sw n_ctx fuel st).pendingOut =
          (genTokens vf samples stopSched sw n_ctx fuel st).generated) := by
  exact ⟨fun evs pend => runChan_flatten evs pend,
         fun h => ⟨rfl, rfl⟩,
         fun vf samples stopSched sw n_ctx fuel st h =>
           genTokens_pending_generated vf samples stopSched sw n_ctx fuel st h⟩

/-- C2 witness: a concrete session — append "ab", poll, append "c" — where
the polls plus the final drain reproduce "abc", and a concrete worker loop
whose pending buffer ends up equal to its accumulated text. -/
theorem C2_witness :
    ((runChan [] [ChanEv.append ['a', 'b'], ChanEv.poll, ChanEv.append ['c']]).2).flatten ++
        (runChan [] [ChanEv.append ['a', 'b'], ChanEv.poll, ChanEv.append ['c']]).1 =
      [] ++ (appendsOf [ChanEv.append ['a', 'b'], ChanEv.poll, ChanEv.append ['c']]).flatten ∧
    (genTokens ⟨fun _ => [], fun _ => ['z'], 9⟩ (fun _ => 0) (fun _ => false)
        [] 5 3 ⟨[], [], 0, [], 0, 0, false⟩).pendingOut =
      (genTokens ⟨fun _ => [], fun _ => ['z'], 9⟩ (fun _ => 0) (fun _ => false)
        [] 5 3 ⟨[], [], 0, [], 0, 0, false⟩).generated := by
  exact ⟨C2_poll_concat_equals_drain.1 _ [],
         C2_poll_concat_equals_drain.2.2 ⟨fun _ => [], fun _ => ['z'], 9⟩
           (fun _ => 0) (fun _ => false) [] 5 3 ⟨[], [], 0, [], 0, 0, false⟩ rfl⟩

theorem checkStopSequences_iff (sw : List Str) (s : Str) :
    checkStopSequences sw s = true ↔ ∃ w, w ∈ sw ∧ w ≠ [] ∧ w <:+ s := by
  simp only [checkStopSequences, List.any_eq_true, Bool.and_eq_true, decide_eq_true_eq,
    List.isSuffixOf_iff_suffix]
  constructor
  · rintro ⟨w, hw, ⟨hne, hlen⟩, hsuf⟩
    exact ⟨w, hw, by simpa using hne, hsuf⟩
  · rintro ⟨w, hw, hne, hsuf⟩
    exact ⟨w, hw, ⟨by simpa using hne, hsuf.length_le⟩, hsuf⟩

theorem genTokens_halts_on_stopword (vf : VocabFns) (samples : Nat → Nat)
    (stopSched : Nat → Bool) (sw : List Str) (n_ctx fuel : Nat) (st : LoopSt)
    (hflag : stopSched st.sampleIdx = false)
    (heos : ¬ samples st.sampleIdx = vf.eosTok)
    (hstop : checkStopSequences sw
      (st.generated ++ vf.pieceFn (samples st.sampleIdx)) = true) :
    genTokens vf samples stopSched sw n_ctx (fuel + 1) st =
      { st with
        sampleIdx := st.sampleIdx + 1,
        pendingOut := st.pendingOut ++ vf.pieceFn (samples st.sampleIdx),
        generated := st.generated ++ vf.pieceFn (samples st.sampleIdx),
        genCount := st.genCount + 1 } := by
  simp only [genTokens, hflag, heos, hstop]
  simp

/-- C3: the stop-word check runs after each decoded fragment is appended and
looks at the suffix of the whole accumulated text — it holds exactly when
the accumulated text ends with some non-empty configured stop word — and
whenever it holds the loop stops right there: the fragment that completed
the stop word is still published, but no decode of that token happens (the
memory and position are untouched) and no further token is sampled.  In
particular the stop word "AB" arriving split across the two fragments "xA"
and "B" is detected, even though neither fragment alone ends with it. -/
theorem C3_stopword_suffix_of_accumulated :
    (∀ (sw : List Str) (s : Str),
      checkStopSequences sw s = true ↔ ∃ w, w ∈ sw ∧ w ≠ [] ∧ w <:+ s) ∧
    (∀ (vf : VocabFns) (samples : Nat → Nat) (stopSched : Nat → Bool)
        (sw : List Str) (n_ctx fuel : Nat) (st : LoopSt),
      stopSched st.sampleIdx = false →
      ¬ samples st.sampleIdx = vf.eosTok →
      checkStopSequences sw
        (st.generated ++ vf.pieceFn (samples st.sampleIdx)) = true →
      genTokens vf samples stopSched sw n_ctx (fuel + 1) st =
        { st with
          sampleIdx := st.sampleIdx + 1,
          pendingOut := st.pendingOut ++ vf.pieceFn (samples st.sampleIdx),
          generated := st.generated ++ vf.pieceFn (samples st.sampleIdx),
          genCount := st.genCount + 1 }) ∧
    (genTokens vfSplit (fun i => i) (fun _ => false) [['A', 'B']] 100 10
        ⟨[], [], 0, [], 0, 0, false⟩ =
      ⟨['x', 'A', 'B'], ['x', 'A', 'B'], 1, [0], 2, 2, false⟩ ∧
      checkStopSequences [['A', 'B']] ['x', 'A'] = false ∧
      checkStopSequences [['A', 'B']] ['B'] = false) := by
  refine ⟨checkStopSequences_iff, ?_, by decide, by decide, by decide⟩
  intro vf samples stopSched sw n_ctx fuel st hflag heos hstop
  exact genTokens_halts_on_stopword vf samples stopSched sw n_ctx fuel st hflag heos hstop

/-- C3 witness: at the concrete loop state reached after the fragment "xA",
sampling token 1 appends "B", the accumulated text "xAB" ends with the stop
word "AB", and the loop halts with no decode and no further sampling. -/
theorem C3_witness :
    checkStopSequences [['A', 'B']] (['x', 'A'] ++ vfSplit.pieceFn 1) = true ∧
    genTokens vfSplit (fun i => i) (fun _ => false) [['A', 'B']] 100 3
        ⟨['x', 'A'], ['x', 'A'], 1, [0], 1, 1, false⟩ =
      ⟨['x', 'A', 'B'], ['x', 'A', 'B'], 1, [0], 2, 2, false⟩ := by
  refine ⟨by decide, ?_⟩
  exact C3_stopword_suffix_of_accumulated.2.1 vfSplit (fun i => i) (fun _ => false)
    [['A', 'B']] 100 2 ⟨['x', 'A'], ['x', 'A'], 1, [0], 1, 1, false⟩
    rfl (by decide) (by decide)

theorem submitInput_spec (limit interval : Nat) (st : AppSt)
    (hst : st.currentState = AppState.CHATTING) (hin : st.input ≠ []) :
    (submitInput limit interval st).chatHistory
        = st.chatHistory ++ [⟨st.input, true, MsgColor.yellow⟩] ∧
    (limit + interval ≤ st.chatHistory.length + 1 →
        (submitInput limit interval st).currentState = AppState.SUMMARIZING) ∧
    (st.chatHistory.length + 1 < limit + interval →
        (submitInput limit interval st).currentState = AppState.GENERATING_REPLY) := by
  have hemp : st.input.isEmpty = false := by
    cases hi : st.input
    · exact absurd hi hin
    · rfl
  by_cases hth : limit + interval ≤ st.chatHistory.length + 1
  · refine ⟨?_, fun _ => ?_, fun hlt => absurd hth (by omega)⟩ <;>
      simp [submitInput, hst, hemp, hth]
  · refine ⟨?_, fun hle => absurd hle hth, fun _ => ?_⟩ <;>
      simp [submitInput, hst, hemp, hth]

theorem updateFrame_summarizing_finished (limit : Nat) (sw : List Str)
    (chunk : Str) (g2 : Bool) (st : AppSt)
    (hst : st.currentState = AppState.SUMMARIZING) (hwg : st.wasGenerating = true) :
    (updateFrame limit sw chunk false g2 st).chatHistory =
      st.chatHistory.drop (st.chatHistory.length - limit) ∧
    (updateFrame limit sw chunk false g2 st).currentState =
      AppState.GENERATING_REPLY ∧
    (updateFrame limit sw chunk false g2 st).conversationSummary =
      st.tempSummary ++ chunk := by
  have hroute : routeChunk chunk st =
      { st with tempSummary := st.tempSummary ++ chunk } := by
    unfold routeChunk
    by_cases hch : chunk.isEmpty
    · have hc : chunk = [] := by simpa using hch
      simp [hch, hc]
    · simp [hch, hst]
  unfold updateFrame
  rw [hroute]
  unfold finishSession
  simp only [hst, hwg, Bool.not_false, Bool.and_true, if_true]
  refine ⟨?_, by trivial, by trivial⟩
  by_cases hp : 0 < (st.chatHistory.length : Int) - (limit : Int)
  · rw [if_pos hp]
    congr 1
    omega
  · rw [if_neg hp]
    have h0 : st.chatHistory.length - limit = 0 := by omega
    rw [h0, List.drop_zero]

/-- C4: submitting user input in CHATTING appends the user message; when
that makes the history reach `limit + interval` messages the app starts a
summarization session (state SUMMARIZING) rather than a reply session, and
only below the threshold does it start the reply (state GENERATING_REPLY).
When the summarization session finishes, the oldest
`history.length - limit` messages are dropped, so the history length is at
most `limit` and the reply session starts next; the defaults are
CHAT_HISTORY_LIMIT = 8 and SUMMARY_INTERVAL = 4, hence the bound 8. -/
theorem C4_summarization_keeps_history_bounded :
    (∀ (limit interval : Nat) (st : AppSt),
      st.currentState = AppState.CHATTING → st.input ≠ [] →
      (submitInput limit interval st).chatHistory
          = st.chatHistory ++ [⟨st.input, true, MsgColor.yellow⟩] ∧
      (limit + interval ≤ st.chatHistory.length + 1 →
          (submitInput limit interval st).currentState = AppState.SUMMARIZING) ∧
      (st.chatHistory.length + 1 < limit + interval →
          (submitInput limit interval st).currentState = AppState.GENERATING_REPLY)) ∧
    (∀ (limit : Nat) (sw : List Str) (chunk : Str) (g2 : Bool) (st : AppSt),
      st.currentState = AppState.SUMMARIZING → st.wasGenerating = true →
      (updateFrame limit sw chunk false g2 st).chatHistory =
        st.chatHistory.drop (st.chatHistory.length - limit) ∧
      (updateFrame limit sw chunk false g2 st).chatHistory.length ≤ limit ∧
      (updateFrame limit sw chunk false g2 st).currentState =
        AppState.GENERATING_REPLY) ∧
    (CHAT_HISTORY_LIMIT = 8 ∧ SUMMARY_INTERVAL = 4) := by
  refine ⟨fun limit interval st hst hin => submitInput_spec limit interval st hst hin,
          fun limit sw chunk g2 st hst hwg => ?_, rfl, rfl⟩
  obtain ⟨h1, h2, _⟩ := updateFrame_summarizing_finished limit sw chunk g2 st hst hwg
  refine ⟨h1, ?_, h2⟩
  rw [h1, List.length_drop]
  omega

/-- C4 witness: with 11 messages in the history, submitting a 12th (user)
message crosses the default threshold 8 + 4 and enters SUMMARIZING; when
that summarization finishes, exactly 4 messages are pruned, the history has
8 ≤ 8 messages and the reply session starts. -/
theorem C4_witness :
    (submitInput CHAT_HISTORY_LIMIT SUMMARY_INTERVAL st11).currentState =
        AppState.SUMMARIZING ∧
    (updateFrame CHAT_HISTORY_LIMIT []
        [] false true (submitInput CHAT_HISTORY_LIMIT SUMMARY_INTERVAL st11)).chatHistory.length
      ≤ CHAT_HISTORY_LIMIT := by
  have h1 := C4_summarization_keeps_history_bounded.1 CHAT_HISTORY_LIMIT SUMMARY_INTERVAL st11
    rfl (by decide)
  have hsumm : (submitInput CHAT_HISTORY_LIMIT SUMMARY_INTERVAL st11).currentState =
      AppState.SUMMARIZING := h1.2.1 (by decide)
  have hwg : (submitInput CHAT_HISTORY_LIMIT SUMMARY_INTERVAL st11).wasGenerating = true := by
    decide
  have h2 := C4_summarization_keeps_history_bounded.2.1 CHAT_HISTORY_LIMIT [] [] true
    (submitInput CHAT_HISTORY_LIMIT SUMMARY_INTERVAL st11) hsumm hwg
  exact ⟨hsumm, h2.2.1⟩

theorem matchesAt_length_le {w s : Str} {p : Nat} (h : matchesAt w s p = true) :
    w.length ≤ s.length - p := by
  unfold matchesAt at h
  have heq : (s.drop p).take w.length = w := eq_of_beq h
  have hlen := congrArg List.length heq
  rw [List.length_take, List.length_drop] at hlen
  omega

theorem rfindAux_spec (w s : Str) :
    ∀ p : Nat,
      (∀ q, rfindAux w s p = some q →
        q ≤ p ∧ matchesAt w s q = true ∧
          ∀ r, q < r → r ≤ p → matchesAt w s r = false) ∧
      (rfindAux w s p = none → ∀ q, q ≤ p → matchesAt w s q = false) := by
  intro p
  induction p with
  | zero =>
      constructor
      · intro q hq
        unfold rfindAux at hq
        by_cases hm : matchesAt w s 0 = true
        · rw [if_pos hm] at hq
          cases hq
          exact ⟨Nat.le_refl 0, hm, fun r hr hr0 => by omega⟩
        · rw [if_neg hm] at hq
          cases hq
      · intro hn q hq
        unfold rfindAux at hn
        by_cases hm : matchesAt w s 0 = true
        · rw [if_pos hm] at hn; cases hn
        · have hq0 : q = 0 := Nat.le_zero.mp hq
          rw [hq0]
          exact Bool.not_eq_true _ |>.mp hm
  | succ p ih =>
      constructor
      · intro q hq
        unfold rfindAux at hq
        by_cases hm : matchesAt w s (p + 1) = true
        · rw [if_pos hm] at hq
          cases hq
          exact ⟨Nat.le_refl _, hm, fun r hr hr1 => by omega⟩
        · rw [if_neg hm] at hq
          obtain ⟨hle, hmq, hgr⟩ := ih.1 q hq
          refine ⟨Nat.le_succ_of_le hle, hmq, fun r hr hr1 => ?_⟩
          rcases Nat.lt_or_ge r (p + 1) with hlt | hge
          · exact hgr r hr (Nat.lt_succ_iff.mp hlt)
          · have : r = p + 1 := Nat.le_antisymm hr1 hge
            rw [this]
            exact Bool.not_eq_true _ |>.mp hm
      · intro hn q hq
        unfold rfindAux at hn
        by_cases hm : matchesAt w s (p + 1) = true
        · rw [if_pos hm] at hn; cases hn
        · rw [if_neg hm] at hn
          rcases Nat.lt_or_ge q (p + 1) with hlt | hge
          · exact ih.2 hn q (Nat.lt_succ_iff.mp hlt)
          · have : q = p + 1 := Nat.le_antisymm hq hge
            rw [this]
            exact Bool.not_eq_true _ |>.mp hm

theorem rfind_some_spec {w s : Str} {p : Nat} (h : rfind w s = some p) :
    matchesAt w s p = true ∧ p ≤ s.length ∧
      ∀ q, q ≤ s.length → matchesAt w s q = true → q ≤ p := by
  unfold rfind at h
  by_cases hl : w.length ≤ s.length
  · rw [if_pos hl] at h
    obtain ⟨hle, hm, hgr⟩ := (rfindAux_spec w s (s.length - w.length)).1 p h
    refine ⟨hm, by omega, fun q hq hmq => ?_⟩
    have hwq := matchesAt_length_le hmq
    by_contra hgt
    have hq' : p < q := by omega
    have : matchesAt w s q = false := hgr q hq' (by omega)
    rw [this] at hmq
    cases hmq
  · rw [if_neg hl] at h
    cases h

theorem rfind_none_spec {w s : Str} (h : rfind w s = none) :
    ∀ q, q ≤ s.length → matchesAt w s q = false := by
  intro q hq
  unfold rfind at h
  by_cases hl : w.length ≤ s.length
  · rw [if_pos hl] at h
    cases hmq : matchesAt w s q with
    | false => rfl
    | true =>
        have hwq := matchesAt_length_le hmq
        have := (rfindAux_spec w s (s.length - w.length)).2 h q (by omega)
        rw [this] at hmq
        cases hmq
  · cases hmq : matchesAt w s q with
    | false => rfl
    | true =>
        have hwq := matchesAt_length_le hmq
        omega

theorem trimStopWord_isPrefixOf (s w : Str) : trimStopWord s w <+: s := by
  unfold trimStopWord
  cases h : rfind w s with
  | none => exact List.prefix_refl s
  | some p => exact List.take_prefix p s

theorem stripStopWords_isPrefixOf (sw : List Str) : ∀ s : Str, stripStopWords sw s <+: s := by
  induction sw with
  | nil => intro s; exact List.prefix_refl s
  | cons w ws ih =>
      intro s
      exact (ih (trimStopWord s w)).trans (trimStopWord_isPrefixOf s w)

theorem updateFrame_reply_finished (limit : Nat) (sw : List Str)
    (chunk : Str) (g2 : Bool) (st : AppSt) (last : ChatMessage)
    (hst : st.currentState = AppState.GENERATING_REPLY)
    (hwg : st.wasGenerating = true)
    (hlast : st.chatHistory.getLast? = some last) (hau : last.isUser = false) :
    (updateFrame limit sw chunk false g2 st).chatHistory =
      st.chatHistory.dropLast ++
        [{ last with content := stripStopWords sw (last.content ++ chunk) }] ∧
    (updateFrame limit sw chunk false g2 st).currentState = AppState.CHATTING := by
  have hroute : routeChunk chunk st =
      { st with chatHistory :=
          st.chatHistory.dropLast ++
            [{ last with content := last.content ++ chunk }] } := by
    unfold routeChunk
    by_cases hch : chunk.isEmpty
    · have hc : chunk = [] := by simpa using hch
      subst hc
      simp only [List.isEmpty_nil, if_true]
      have hmsg : ({ last with content := last.content ++ [] } : ChatMessage) = last := by
        simp
      rw [hmsg, List.dropLast_append_getLast? last hlast]
    · simp [hch, hst, hlast, hau]
  unfold updateFrame
  rw [hroute]
  unfold finishSession
  have hget : (st.chatHistory.dropLast ++
      [({ last with content := last.content ++ chunk } : ChatMessage)]).getLast? =
      some { last with content := last.content ++ chunk } := by
    simp
  simp only [hst, hwg, Bool.not_false, Bool.and_true, if_true, hget, hau]
  constructor
  · simp
  · trivial

/-- C5 counterexample: with the Teuken stop words "User:" then "Assistant:"
configured and the finished assistant reply "Hello User: hi Assistant:",
the code's cleanup truncates at the last occurrence of "User:" first,
yielding "Hello " — not "Hello User: hi ", the truncation at the match
furthest right across all stop words — so the strip is not the claimed
rightmost-match truncation, and more than one occurrence is removed. -/
theorem C5_counterexample_not_rightmost :
    stripStopWords teukenStops msgC5 = "Hello ".data ∧
    rightmostStrip teukenStops msgC5 = "Hello User: hi ".data ∧
    stripStopWords teukenStops msgC5 ≠ rightmostStrip teukenStops msgC5 ∧
    (updateFrame 8 teukenStops [] false false stC5).chatHistory =
      [⟨"Hello ".data, false, MsgColor.white⟩] := by
  refine ⟨by decide, by decide, by decide, by decide⟩

/-- C5 amended: when a reply session finishes, the cleanup iterates over the
configured stop words in configuration order and, for each one, truncates
the last assistant message at that stop word's last (rightmost) occurrence
in the already-truncated text, if it occurs at all; each truncation keeps
the text before the match, the overall result is a prefix of the message,
and the fold may truncate several times — it does not take the single match
furthest right across all stop words. -/
theorem C5_reply_strip_sequential_last_occurrence :
    (∀ (limit : Nat) (sw : List Str) (chunk : Str) (g2 : Bool) (st : AppSt)
        (last : ChatMessage),
      st.currentState = AppState.GENERATING_REPLY → st.wasGenerating = true →
      st.chatHistory.getLast? = some last → last.isUser = false →
      (updateFrame limit sw chunk false g2 st).chatHistory =
        st.chatHistory.dropLast ++
          [{ last with content := stripStopWords sw (last.content ++ chunk) }] ∧
      (updateFrame limit sw chunk false g2 st).currentState = AppState.CHATTING) ∧
    (∀ (sw : List Str) (s : Str), stripStopWords sw s = sw.foldl trimStopWord s) ∧
    (∀ (sw : List Str) (s : Str), stripStopWords sw s <+: s) ∧
    (∀ (w s : Str) (p : Nat), rfind w s = some p →
      trimStopWord s w = s.take p ∧ matchesAt w s p = true ∧
      ∀ q, q ≤ s.length → matchesAt w s q = true → q ≤ p) ∧
    (∀ (w s : Str), rfind w s = none →
      trimStopWord s w = s ∧ ∀ q, q ≤ s.length → matchesAt w s q = false) := by
  refine ⟨fun limit sw chunk g2 st last hst hwg hlast hau =>
            updateFrame_reply_finished limit sw chunk g2 st last hst hwg hlast hau,
          fun sw s => rfl,
          fun sw s => stripStopWords_isPrefixOf sw s,
          fun w s p h => ?_, fun w s h => ?_⟩
  · obtain ⟨hm, hple, hgr⟩ := rfind_some_spec h
    exact ⟨by unfold trimStopWord; rw [h], hm, hgr⟩
  · exact ⟨by unfold trimStopWord; rw [h], rfind_none_spec h⟩

/-- C5 witness: the amended statement applied to the concrete finished reply
state, and to the concrete searches rfind "User:" (found at 6, its only and
hence greatest occurrence) and rfind "zz" (absent). -/
theorem C5_witness :
    (updateFrame 8 teukenStops ['!'] false false stC5).currentState =
        AppState.CHATTING ∧
    trimStopWord msgC5 "User:".data = msgC5.take 6 ∧
    trimStopWord msgC5 "zz".data = msgC5 := by
  refine ⟨?_, ?_, ?_⟩
  · exact (C5_reply_strip_sequential_last_occurrence.1 8 teukenStops ['!'] false stC5
      ⟨msgC5, false, MsgColor.white⟩ rfl rfl (by decide) rfl).2
  · exact ((C5_reply_strip_sequential_last_occurrence.2.2.2.1 "User:".data msgC5 6)
      (by decide)).1
  · exact ((C5_reply_strip_sequential_last_occurrence.2.2.2.2 "zz".data msgC5)
      (by decide)).1

theorem le_foldl_max (l : List Nat) : ∀ a : Nat, a ≤ l.foldl max a := by
  induction l with
  | nil => intro a; exact Nat.le_refl a
  | cons b l ih => intro a; exact le_trans (le_max_left a b) (ih (max a b))

theorem foldl_max_le (l : List Nat) :
    ∀ a m : Nat, a ≤ m → (∀ p ∈ l, p ≤ m) → l.foldl max a ≤ m := by
  induction l with
  | nil => intro a m ha _; exact ha
  | cons b l ih =>
      intro a m ha hl
      exact ih (max a b) m (max_le ha (hl b (List.mem_cons_self b l)))
        fun p hp => hl p (List.mem_cons_of_mem b hp)

theorem seq_pos_max_append (mem ps : List Nat) :
    llama_memory_seq_pos_max mem ≤ llama_memory_seq_pos_max (mem ++ ps) := by
  unfold llama_memory_seq_pos_max
  rw [List.foldl_append]
  exact le_foldl_max ps _

theorem fill_mono_decode {n_ctx : Nat} {mem ps mem2 : List Nat}
    (h : llama_decode n_ctx mem ps = some mem2) :
    (llama_memory_seq_pos_max mem : ℚ) / (n_ctx : ℚ) ≤
      (llama_memory_seq_pos_max mem2 : ℚ) / (n_ctx : ℚ) := by
  unfold llama_decode at h
  by_cases hall : ps.all (fun p => p < n_ctx)
  · rw [if_pos hall] at h
    cases h
    rcases Nat.eq_zero_or_pos n_ctx with h0 | hpos
    · simp [h0]
    · have hc : (0 : ℚ) < (n_ctx : ℚ) := by exact_mod_cast hpos
      exact (div_le_div_iff_of_pos_right hc).mpr
        (by exact_mod_cast seq_pos_max_append mem ps)
  · rw [if_neg hall] at h
    cases h

theorem feedPrompt_fill_mono (nBatch n_ctx : Nat) :
    ∀ (fuel : Nat) (toks mem : List Nat) (n_past : Nat),
      (llama_memory_seq_pos_max mem : ℚ) / (n_ctx : ℚ) ≤
        (llama_memory_seq_pos_max (feedPrompt nBatch n_ctx fuel toks mem n_past).1 : ℚ) /
          (n_ctx : ℚ) := by
  intro fuel
  induction fuel with
  | zero =>
      intro toks mem n_past
      cases toks <;> exact le_refl _
  | succ fuel ih =>
      intro toks mem n_past
      cases toks with
      | nil => exact le_refl _
      | cons tok rest =>
          simp only [feedPrompt]
          split
          · exact le_refl _
          · next mem2 heq =>
              exact le_trans (fill_mono_decode heq) (ih _ mem2 _)

theorem genTokens_fill_mono (vf : VocabFns) (samples : Nat → Nat)
    (stopSched : Nat → Bool) (sw : List Str) (n_ctx : Nat) :
    ∀ (fuel : Nat) (st : LoopSt),
      (llama_memory_seq_pos_max st.mem : ℚ) / (n_ctx : ℚ) ≤
        (llama_memory_seq_pos_max
            (genTokens vf samples stopSched sw n_ctx fuel st).mem : ℚ) /
          (n_ctx : ℚ) := by
  intro fuel
  induction fuel with
  | zero => intro st; exact le_refl _
  | succ fuel ih =>
      intro st
      simp only [genTokens]
      split
      · exact le_refl _
      · split
        · exact le_refl _
        · split
          · exact le_refl _
          · split
            · exact le_refl _
            · next mem2 heq =>
                exact le_trans (fill_mono_decode heq) (ih _)

theorem fillRatio_loaded_bounds (h : Handle) (c : Ctx) (hctx : h.ctx = some c)
    (hmem : ∀ p ∈ c.mem, p < c.n_ctx) :
    ∃ q : ℚ, getContextFillRatio h = EngineOut.ok q ∧ 0 ≤ q ∧ q ≤ 1 := by
  refine ⟨(llama_memory_seq_pos_max c.mem : ℚ) / (getContextSize h : ℚ), ?_, ?_, ?_⟩
  · unfold getContextFillRatio
    rw [hctx]
  · positivity
  · have hsize : getContextSize h = c.n_ctx := by unfold getContextSize; rw [hctx]
    rw [hsize]
    rcases Nat.eq_zero_or_pos c.n_ctx with h0 | hpos
    · have hnil : c.mem = [] := by
        cases hm : c.mem with
        | nil => rfl
        | cons p l =>
            have := hmem p (by rw [hm]; exact List.mem_cons_self p l)
            omega
      rw [hnil]
      simp [llama_memory_seq_pos_max, h0]
    · have hle : llama_memory_seq_pos_max c.mem ≤ c.n_ctx :=
        foldl_max_le c.mem 0 c.n_ctx (Nat.zero_le _)
          fun p hp => Nat.le_of_lt (hmem p hp)
      have hc : (0 : ℚ) < (c.n_ctx : ℚ) := by exact_mod_cast hpos
      rw [div_le_one hc]
      exact_mod_cast hle

/-- C9 (recording the divergence): getContextFillRatio has no null check —
on a handle with no context it hands a null pointer to llama_get_memory and
divides by a zero getContextSize, so it does not return a value in [0, 1]
there.  On a loaded handle whose memory only holds positions inside the
context window it does return a rational in [0, 1]; it returns 0 right
after resetContext; and the ratio is monotonically non-decreasing through
the worker's decode steps — both the batched prompt phase and the
token-generation loop can only raise it. -/
theorem C9_fill_ratio_bounds_monotone_reset :
    (getContextFillRatio initHandle = EngineOut.ub) ∧
    (∀ (h : Handle) (c : Ctx), h.ctx = some c → (∀ p ∈ c.mem, p < c.n_ctx) →
      ∃ q : ℚ, getContextFillRatio h = EngineOut.ok q ∧ 0 ≤ q ∧ q ≤ 1) ∧
    (∀ (h : Handle) (c : Ctx), h.ctx = some c →
      getContextFillRatio (resetContext h) = EngineOut.ok 0) ∧
    (∀ (n_ctx : Nat) (mem ps mem2 : List Nat),
      llama_decode n_ctx mem ps = some mem2 →
      (llama_memory_seq_pos_max mem : ℚ) / (n_ctx : ℚ) ≤
        (llama_memory_seq_pos_max mem2 : ℚ) / (n_ctx : ℚ)) ∧
    (∀ (nBatch n_ctx fuel : Nat) (toks mem : List Nat) (n_past : Nat),
      (llama_memory_seq_pos_max mem : ℚ) / (n_ctx : ℚ) ≤
        (llama_memory_seq_pos_max (feedPrompt nBatch n_ctx fuel toks mem n_past).1 : ℚ) /
          (n_ctx : ℚ)) ∧
    (∀ (vf : VocabFns) (samples : Nat → Nat) (stopSched : Nat → Bool)
        (sw : List Str) (n_ctx fuel : Nat) (st : LoopSt),
      (llama_memory_seq_pos_max st.mem : ℚ) / (n_ctx : ℚ) ≤
        (llama_memory_seq_pos_max
            (genTokens vf samples stopSched sw n_ctx fuel st).mem : ℚ) /
          (n_ctx : ℚ)) := by
  refine ⟨rfl, fillRatio_loaded_bounds, fun h c hctx => ?_,
          fun n_ctx mem ps mem2 hdec => fill_mono_decode hdec,
          fun nBatch n_ctx fuel toks mem n_past =>
            feedPrompt_fill_mono nBatch n_ctx fuel toks mem n_past,
          fun vf samples stopSched sw n_ctx fuel st =>
            genTokens_fill_mono vf samples stopSched sw n_ctx fuel st⟩
  unfold resetContext getContextFillRatio getContextSize
  rw [hctx]
  simp [llama_memory_seq_pos_max]

/-- C9 witness: a loaded handle with context size 4 and memory positions 0
and 1 has a fill ratio in [0, 1]; after resetContext the ratio is 0; and
decoding position 2 into that memory cannot lower the ratio. -/
theorem C9_witness :
    (∃ q : ℚ,
      getContextFillRatio { initHandle with ctx := some ⟨4, [0, 1]⟩ } = EngineOut.ok q ∧
      0 ≤ q ∧ q ≤ 1) ∧
    getContextFillRatio (resetContext { initHandle with ctx := some ⟨4, [0, 1]⟩ }) =
      EngineOut.ok 0 ∧
    (llama_memory_seq_pos_max [0, 1] : ℚ) / (4 : ℚ) ≤
      (llama_memory_seq_pos_max [0, 1, 2] : ℚ) / (4 : ℚ) := by
  refine ⟨C9_fill_ratio_bounds_monotone_reset.2.1 _ ⟨4, [0, 1]⟩ rfl (by decide),
          C9_fill_ratio_bounds_monotone_reset.2.2.1 _ ⟨4, [0, 1]⟩ rfl, ?_⟩
  exact C9_fill_ratio_bounds_monotone_reset.2.2.2.1 4 [0, 1] [2] [0, 1, 2] (by decide)

theorem generationLoop_min_independent (vf : VocabFns) (samples : Nat → Nat)
    (stopSched : Nat → Bool) (h : Handle) (n : Nat) :
    generationLoop vf samples stopSched (setMinTokens h n) =
      EngineOut.map (fun h2 => setMinTokens h2 n)
        (generationLoop vf samples stopSched h) := by
  obtain ⟨model, ctx, mp, cs, sa, ge, rs, po, cp, te, tp, tk, rp, pp, fp, mi, ma, sw⟩ := h
  cases model <;> cases ctx <;>
    simp only [generationLoop, resetContext, tokenize, llama_model_get_vocab,
      setMinTokens, EngineOut.map]
  split <;> rfl

/-- C10: the configured minimum-token setting is never enforced.
setMinTokens stores its argument into min_gen_tokens and changes no other
field; the whole generation loop never reads it — running it with the
minimum set to any value yields exactly the result of running it without,
with only the stored field differing — and the loop can terminate after
zero generated fragments (an immediate end-of-sequence token) even when the
stored minimum is 5. -/
theorem C10_min_tokens_never_enforced :
    (∀ (h : Handle) (n : Nat),
      setMinTokens h n = { h with min_gen_tokens := n } ∧
      (setMinTokens h n).min_gen_tokens = n ∧
      (setMinTokens h n).model = h.model ∧
      (setMinTokens h n).ctx = h.ctx ∧
      (setMinTokens h n).modelPath = h.modelPath ∧
      (setMinTokens h n).contextSize = h.contextSize ∧
      (setMinTokens h n).sampler = h.sampler ∧
      (setMinTokens h n).generating = h.generating ∧
      (setMinTokens h n).requestStop = h.requestStop ∧
      (setMinTokens h n).pendingOut = h.pendingOut ∧
      (setMinTokens h n).currentPrompt = h.currentPrompt ∧
      (setMinTokens h n).temperature = h.temperature ∧
      (setMinTokens h n).top_p = h.top_p ∧
      (setMinTokens h n).top_k = h.top_k ∧
      (setMinTokens h n).repeat_penalty = h.repeat_penalty ∧
      (setMinTokens h n).presence_penalty = h.presence_penalty ∧
      (setMinTokens h n).frequency_penalty = h.frequency_penalty ∧
      (setMinTokens h n).max_gen_tokens = h.max_gen_tokens ∧
      (setMinTokens h n).stopWords = h.stopWords) ∧
    (∀ (vf : VocabFns) (samples : Nat → Nat) (stopSched : Nat → Bool)
        (h : Handle) (n : Nat),
      generationLoop vf samples stopSched (setMinTokens h n) =
        EngineOut.map (fun h2 => setMinTokens h2 n)
          (generationLoop vf samples stopSched h)) ∧
    ((setMinTokens initHandle 5).min_gen_tokens = 5 ∧
      (genTokens vfSplit (fun _ => 99) (fun _ => false) [] 100 10
          ⟨[], [], 0, [], 0, 0, false⟩).genCount = 0 ∧
      (0 : Nat) < 5) := by
  refine ⟨fun h n => ⟨rfl, rfl, rfl, rfl, rfl, rfl, rfl, rfl, rfl, rfl, rfl, rfl,
            rfl, rfl, rfl, rfl, rfl, rfl, rfl⟩,
          fun vf samples stopSched h n =>
            generationLoop_min_independent vf samples stopSched h n,
          by decide, by decide, by decide⟩

end OfxLlama
